import Mathlib

/-!
A shallow embedding, in Lean 4, of the index-construction and
table-materialization code of the `datman-niviz` repository
(`niviz_rater/bin/init_db.py`, `niviz_rater/models.py`,
`niviz_rater/utils.py`, `views.py`), together with theorems checking the
repository's natural-language specification against it.

Modelling conventions:
* Python `dict`s (BIDS entity maps, request bodies) are association lists
  `List (String × String)` (or `List (String × JVal)`), with first-occurrence
  lookup; well-formed Python dicts have `Nodup` keys, carried as hypotheses
  where equality of dicts matters.
* Python `string.Template` objects are represented by their parsed part list
  (literal runs and `$placeholder` occurrences); `Template.substitute` raising
  `KeyError` is represented by `Option`.
* Exceptions are `Except`; SQLAlchemy sessions are explicit state values.
* Python `str` in the `parse_db_name` / `set_db` claims is `List Char`,
  with `str.split` / `str.join` defined to mirror Python semantics.
-/

namespace DatmanNiviz

/-- An attribute map: a Python `dict` from attribute names to values. -/
abbrev AttrMap := List (String × String)

/-- First-occurrence lookup of a key in an association list (Python `d[k]`
returning `none` where Python raises `KeyError`). -/
def lookupKV (k : String) : AttrMap → Option String
  | [] => none
  | (k', v) :: rest => if k' = k then some v else lookupKV k rest

/-- Python `k in d`. -/
def hasKey (k : String) (m : AttrMap) : Bool :=
  (lookupKV k m).isSome

/-- The keys of an association list. -/
def keysOf (m : AttrMap) : List String :=
  m.map Prod.fst

/-- Python `dict(big, **small)`: `big`'s entries with values overridden by
`small` where present, followed by `small`'s entries whose keys are new. -/
def dictUpdate (big small : AttrMap) : AttrMap :=
  big.map (fun kv =>
    match lookupKV kv.1 small with
    | some w => (kv.1, w)
    | none => kv)
  ++ small.filter (fun kv => !hasKey kv.1 big)

/-- Python `==` on dicts (extensional equality of the key→value mappings),
decidably, for association lists representing dicts. -/
def dictEqB (a b : AttrMap) : Bool :=
  a.all (fun kv => lookupKV kv.1 b == some kv.2)
  && b.all (fun kv => lookupKV kv.1 a == some kv.2)

/-- `init_db._is_subdict(big, small)`: `dict(big, **small) == big`. -/
def _is_subdict (big small : AttrMap) : Bool :=
  dictEqB (dictUpdate big small) big

/-! ### Matcher data model (`niviz_rater/bin/init_db.py`) -/

/-- A discovered file record (a pyBIDS `BIDSFile`): a path plus an attribute
map of BIDS entities. -/
structure BidsFile where
  path : String
  entities : AttrMap
deriving Repr, DecidableEq

/-- A `string.Template`, represented by its parsed parts: literal runs and
`$key` placeholders. -/
inductive TplPart where
  | lit (s : String)
  | var (k : String)
deriving Repr, DecidableEq

abbrev Tpl := List TplPart

/-- `Template.substitute`: concatenate the parts, replacing each `$key` by
its binding; `none` models Python's `KeyError` on a missing binding. -/
def substituteTpl (t : Tpl) (m : AttrMap) : Option String :=
  match t with
  | [] => some ""
  | .lit s :: rest => (substituteTpl rest m).map (fun r => s ++ r)
  | .var k :: rest =>
    match lookupKV k m, substituteTpl rest m with
    | some v, some r => some (v ++ r)
    | _, _ => none

/-- `init_db.QCEntity`. -/
structure QCEntity where
  images : List String
  entities : AttrMap
  tpl_name : Tpl
  tpl_column_name : Tpl
deriving Repr, DecidableEq

/-- `QCEntity.name`. -/
def QCEntity.qcName (e : QCEntity) : Option String :=
  substituteTpl e.tpl_name e.entities

/-- `QCEntity.column_name`. -/
def QCEntity.column_name (e : QCEntity) : Option String :=
  substituteTpl e.tpl_column_name e.entities

/-- `init_db.ConfigComponent` (one parsed component spec). -/
structure ConfigComponent where
  entities : List String
  name : Tpl
  column : Tpl
  image_descriptors : List AttrMap
  available_ratings : List String
deriving Repr, DecidableEq

/-- `init_db._get_key`: the tuple of a record's values at the group-by keys.
Callers only apply it to records that passed the `all(k in b.entities)`
filter, so the `""` default standing in for Python's `KeyError` is
unreachable there. -/
def _get_key (b : BidsFile) (entities : List String) : List String :=
  entities.map (fun e => (lookupKV e b.entities).getD "")

/-- The data `ConfigComponent.find_matches` reports when more than one group
member matches a slot pattern: the match count and the offending slot
pattern (from its `logger.error` calls; the raised `ValueError` itself
carries nothing). No group information is carried. -/
structure MatchError where
  nMatches : Nat
  descriptor : AttrMap
deriving Repr, DecidableEq

/-- `ConfigComponent.find_matches`: filter the group to the members matching
the slot pattern; more than one match raises; `matches[0]` under the
`except IndexError` handler returns the head when present and `None`
otherwise. -/
def find_matches (images : List BidsFile) (image_descriptor : AttrMap) :
    Except MatchError (Option BidsFile) :=
  let ms := images.filter (fun b => _is_subdict b.entities image_descriptor)
  if 1 < ms.length then
    .error { nMatches := ms.length, descriptor := image_descriptor }
  else
    .ok ms.head?

/-- `ConfigComponent._group_by_entities`: filter to records having every
group-by key, then `sorted(..., key=_get_key)` + `groupby(..., key=_get_key)`:
groups appear in ascending key order, one group per distinct key, each group
keeping the input order of its members (Python's sort is stable). -/
def _group_by_entities (ents : List String) (bidsfiles : List BidsFile) :
    List (List String × List BidsFile) :=
  let filtered := bidsfiles.filter (fun b => ents.all (fun k => hasKey k b.entities))
  let keys := ((filtered.map (fun b => _get_key b ents)).dedup).insertionSort (· ≤ ·)
  keys.map (fun k => (k, filtered.filter (fun b => decide (_get_key b ents = k))))

/-- Left-to-right effectful map for `Except`: a Python list comprehension in
which the element expression may raise, the first raise propagating. -/
def mapE {α β ε : Type} (f : α → Except ε β) : List α → Except ε (List β)
  | [] => .ok []
  | a :: as => do
    let b ← f a
    let bs ← mapE f as
    pure (b :: bs)

/-- The body of the `for key, group in ...` loop of
`ConfigComponent.build_qc_entities`: match every slot descriptor against the
group, drop unresolved slots, and build a `QCEntity` when at least one slot
resolved. The group members are guaranteed to carry every group-by key (they
passed the `_group_by_entities` filter), so the `""` default in the
dict comprehension over `self.entities` is unreachable. -/
def processGroup (spec : ConfigComponent) (group : List BidsFile) :
    Except MatchError (Option QCEntity) := do
  let matched ← mapE (fun i => find_matches group i) spec.image_descriptors
  let matched_images := matched.filterMap id
  match matched_images with
  | [] => pure none
  | m0 :: _ =>
    pure (some { images := matched_images.map (fun m => m.path),
                 entities := spec.entities.map
                   (fun k => (k, (lookupKV k m0.entities).getD "")),
                 tpl_name := spec.name,
                 tpl_column_name := spec.column })

/-- `ConfigComponent.build_qc_entities`. -/
def build_qc_entities (spec : ConfigComponent) (image_list : List BidsFile) :
    Except MatchError (List QCEntity) := do
  let groups := _group_by_entities spec.entities image_list
  let opts ← mapE (fun kg => processGroup spec kg.2) groups
  pure (opts.filterMap id)

/-- The Entity Matcher's per-group result as the specification describes it
(§4.1, §4.2): the resolved records are the slots' matches in slot order with
missing slots omitted (each slot resolving to the group's matching member);
a group contributes a `QCEntity` exactly when at least one slot resolved;
and the attribute values for the group-by keys come from the first resolved
slot's record. Stated from the spec's words, for comparison with
`processGroup`. -/
def specQCEntityOfGroup (spec : ConfigComponent) (group : List BidsFile) :
    Option QCEntity :=
  let resolved := spec.image_descriptors.filterMap
    (fun d => group.find? (fun b => _is_subdict b.entities d))
  match resolved with
  | [] => none
  | m0 :: _ =>
    some { images := resolved.map (fun m => m.path),
           entities := spec.entities.map
             (fun k => (k, (lookupKV k m0.entities).getD "")),
           tpl_name := spec.name,
           tpl_column_name := spec.column }

/-! ### Index persistence (`init_db.add_records` and helpers) -/

/-- `init_db.AxisNameTpl`. -/
structure AxisNameTpl where
  tpl : Tpl
  entities : List String
deriving Repr, DecidableEq

/-- `init_db.make_rowname`: restrict the attribute map to the row template's
declared keys, then substitute (`none` models `KeyError`). -/
def make_rowname (rowtpl : AxisNameTpl) (entities : AttrMap) : Option String :=
  substituteTpl rowtpl.tpl
    (entities.filter (fun kv => decide (kv.1 ∈ rowtpl.entities)))

/-- The persisted `models.Entity` row; `rating` stands for the related
`Rating`'s display name (what `Entity.entry` reads), `failed` is the
nullable boolean column, `comment` the nullable text column. -/
structure EntityRow where
  id : Nat
  name : String
  columnname : String
  rowname : String
  component_id : Nat
  comment : Option String
  failed : Option Bool
  rating : Option String
deriving Repr, DecidableEq

/-- One logical database (the tables of `models.tables`). -/
structure DB where
  componentIds : List Nat
  ratings : List (Nat × String)
  tablerows : List String
  tablecolumns : List String
  entities : List EntityRow
  images : List (String × Nat)
deriving Repr, DecidableEq

def emptyDB : DB :=
  { componentIds := [], ratings := [], tablerows := [], tablecolumns := [],
    entities := [], images := [] }

def nextComponentId (db : DB) : Nat := db.componentIds.length + 1

def nextEntityId (db : DB) : Nat := db.entities.length + 1

/-- `init_db.add_component` (autoincrement primary key). -/
def add_component (db : DB) : DB × Nat :=
  let cid := nextComponentId db
  ({ db with componentIds := db.componentIds ++ [cid] }, cid)

/-- `init_db.add_ratings`. -/
def add_ratings (db : DB) (available_ratings : List String) (cid : Nat) : DB :=
  { db with ratings := db.ratings ++ available_ratings.map (fun r => (cid, r)) }

/-- One `db.session.add(TableRow(name=row)); db.session.commit()` step of
`init_db.add_rownames`: a duplicate name violates the `TableRow.name`
primary key (`IntegrityError`), which `add_rownames` catches and rolls back,
leaving the store unchanged. -/
def insertRowName (rows : List String) (n : String) : List String :=
  if n ∈ rows then rows else rows ++ [n]

/-- `init_db.add_rownames`: the Python `set(...)` of resolved row names
(modelled as `dedup`, first-occurrence order; set iteration order does not
affect the resulting store), inserted one at a time with `IntegrityError`
caught. A `make_rowname` failure (`KeyError`) would abort the Python run;
the theorems about this function assume every row name resolves. -/
def add_rownames (rows : List String) (rowtpl : AxisNameTpl)
    (entities : List QCEntity) : List String :=
  ((entities.filterMap (fun e => make_rowname rowtpl e.entities)).dedup).foldl
    insertRowName rows

/-- `init_db.add_colnames`. Unlike `add_rownames` there is no
`IntegrityError` handling; a collision with a pre-existing column would
raise out of the run (no claim exercises that path, and within one
`add_records` call the names are dedup'd by the Python `set`). -/
def add_colnames (cols : List String) (entities : List QCEntity) : List String :=
  cols ++ (entities.filterMap (fun e => e.column_name)).dedup

/-- `init_db.add_entity`: the `comment` column defaults to `""`, `failed`
and the rating reference to `NULL`. A template substitution failure
(`KeyError`) would abort the Python run; callers satisfy the templates, so
the `""` defaults are unreachable. -/
def add_entity (db : DB) (e : QCEntity) (cid : Nat) (rowtpl : AxisNameTpl) :
    DB × Nat :=
  let eid := nextEntityId db
  let row : EntityRow :=
    { id := eid
      name := (e.qcName).getD ""
      columnname := (e.column_name).getD ""
      rowname := (make_rowname rowtpl e.entities).getD ""
      component_id := cid
      comment := some ""
      failed := none
      rating := none }
  ({ db with entities := db.entities ++ [row] }, eid)

/-- `init_db.add_images`. -/
def add_images (db : DB) (e : QCEntity) (eid : Nat) : DB :=
  { db with images := db.images ++ e.images.map (fun p => (p, eid)) }

/-- `init_db.add_records`. -/
def add_records (db : DB) (entities : List QCEntity)
    (available_ratings : List String) (row_tpl : AxisNameTpl) : DB :=
  let cdb := add_component db
  let db2 := add_ratings cdb.1 available_ratings cdb.2
  let db3 := { db2 with tablerows := add_rownames db2.tablerows row_tpl entities }
  let db4 := { db3 with tablecolumns := add_colnames db3.tablecolumns entities }
  entities.foldl (fun d item =>
    let de := add_entity d item cdb.2 row_tpl
    add_images de.1 item de.2) db4

/-- One iteration of the loop in `init_db.build_index`: build the
Component's QC entities and persist them with `add_records`. An ambiguity
error propagates out of `build_qc_entities` before `add_records` is ever
called, so the store is untouched (returned with the error made explicit). -/
def runComponent (db : DB) (spec : ConfigComponent) (row_tpl : AxisNameTpl)
    (files : List BidsFile) : DB × Option MatchError :=
  match build_qc_entities spec files with
  | .error e => (db, some e)
  | .ok ents => (add_records db ents spec.available_ratings row_tpl, none)

/-- All strings the ambiguity failure reports (the two `logger.error`
messages carry the match count and the slot pattern; the raised bare
`ValueError` carries nothing; `print_matches` is computed but never
emitted). -/
def errStrings (e : MatchError) : List String :=
  e.descriptor.map Prod.fst ++ e.descriptor.map Prod.snd

/-- A concrete component spec: group by `subject`, one slot asking for the
`desc=T1` image. -/
def exSpec : ConfigComponent :=
  { entities := ["subject"]
    name := [TplPart.lit "sub-", TplPart.var "subject"]
    column := [TplPart.lit "T1w"]
    image_descriptors := [[("desc", "T1")]]
    available_ratings := ["Pass"] }

/-- A single record resolving the `T1` slot. -/
def exFile1 : BidsFile :=
  { path := "a.nii", entities := [("subject", "01"), ("desc", "T1")] }

/-- Two records of the same group (`subject=01`) both matching the `T1`
slot. -/
def exFiles : List BidsFile :=
  [ { path := "a.nii", entities := [("subject", "01"), ("desc", "T1")] },
    { path := "b.nii", entities := [("subject", "01"), ("desc", "T1")] } ]

/-! ### Serving-time models (`views.py`, `models.Entity`) -/

/-- `Entity.has_failed`. -/
def has_failed (e : EntityRow) : String :=
  match e.failed with
  | some true => "Fail"
  | some false => "Pass"
  | none => ""

/-- `Entity.entry`. `self.comment or ""` yields `""` both for a null and for
an empty comment, which `Option.getD ""` reproduces; `self.rating.name`
is the `rating` field of the model. -/
def entry (e : EntityRow) : String × String × String :=
  (e.rating.getD "", has_failed e, e.comment.getD "")

/-- The cursor loop of `views._make_row`: a single shared cursor over the
row's entities, walked in lockstep with the column list; `entities[p]` on an
exhausted entity list raises `IndexError`, handled by emitting the empty
triplet. -/
def rowCells : List EntityRow → List String → List (String × String × String)
  | _, [] => []
  | [], _ :: cs => ("", "", "") :: rowCells [] cs
  | e :: es, c :: cs =>
    if e.columnname = c then entry e :: rowCells es cs
    else ("", "", "") :: rowCells (e :: es) cs

/-- `views._make_row`: tab-join the row name and the flattened triplets. -/
def _make_row (rowname : String) (entities : List EntityRow)
    (columns : List String) : String :=
  String.intercalate "\t" (rowname ::
    ((rowCells entities columns).map (fun t => [t.1, t.2.1, t.2.2])).flatten)

/-- The response of `views.summary`. -/
structure SummaryResp where
  numberOfUnrated : Nat
  numberOfRows : Nat
  numberOfColumns : Nat
  numberOfEntities : Nat
deriving Repr, DecidableEq

/-- `views.summary`: `Entity.query.filter(Entity.failed == None)` is SQL
`failed IS NULL` — the entities whose tri-state `failed` is unset. -/
def summary (db : DB) : SummaryResp :=
  { numberOfUnrated := (db.entities.filter (fun e => e.failed.isNone)).length
    numberOfRows := db.tablerows.length
    numberOfColumns := db.tablecolumns.length
    numberOfEntities := db.entities.length }

/-- Python exceptions reachable in the modelled handlers. -/
inductive PyExc where
  | indexError
  | attributeError
deriving Repr, DecidableEq

/-- `Entity.query.get`: SQLAlchemy's by-primary-key lookup, which returns
`None` — and does not raise — when the id is absent. -/
def queryGetEntity (db : DB) (eid : Nat) : Option EntityRow :=
  db.entities.find? (fun e => decide (e.id = eid))

/-- `views.get_entity_info`. The `try` block wraps only the `Query.get`
call, and its `except IndexError` arm returns `({}, 404)`. `Query.get`
signals a missing id by returning `None`, not by raising `IndexError`, so
that handler is unreachable, and the subsequent `e.name` attribute access on
`None` raises an uncaught `AttributeError`. The success response is
represented by the fetched row. -/
def get_entity_info (db : DB) (eid : Nat) :
    Except PyExc (Option EntityRow × Nat) :=
  let fetched : Except PyExc (Option EntityRow) := .ok (queryGetEntity db eid)
  match fetched with
  | .error .indexError => .ok (none, 404)
  | .error exc => .error exc
  | .ok (some e) => .ok (some e, 200)
  | .ok none => .error .attributeError

/-- Values of a JSON request body. -/
inductive JVal where
  | str (s : String)
  | bool (b : Bool)
  | int (n : Int)
  | null
deriving Repr, DecidableEq

/-- A Python object's attribute map / a JSON object. -/
abbrev Obj := List (String × JVal)

def lookupJ (k : String) : Obj → Option JVal
  | [] => none
  | (k', v) :: rest => if k' = k then some v else lookupJ k rest

/-- Python `setattr(entity, k, v)` for an ORM column attribute (the column
attributes always exist on the object, so this is a pure replacement). -/
def setAttr (k : String) (v : JVal) : Obj → Obj
  | [] => []
  | (k', v') :: rest =>
    if k' = k then (k, v) :: setAttr k v rest
    else (k', v') :: setAttr k v rest

/-- `views.update_rating` acting on the fetched entity: apply the
intersection of the request-body keys with `{rating, comment, failed}`
(iterated here in a fixed order; Python iterates the set in arbitrary order,
but updates of distinct fields commute), then `entity.save()`. A store
failure is caught and answered with status 400, leaving the persisted entity
unchanged; success answers 200 with the updated entity persisted. -/
def update_rating (entity : Obj) (data : Obj) (saveOk : Bool) : Obj × Nat :=
  let expected_keys := ["rating", "comment", "failed"]
  let update_keys := expected_keys.filter (fun k => (lookupJ k data).isSome)
  let entity' := update_keys.foldl (fun ob k =>
    match lookupJ k data with
    | some v => setAttr k v ob
    | none => ob) entity
  if saveOk then (entity', 200) else (entity, 400)

/-- A concrete row-name template: `sub-$subject` over the `subject` key. -/
def exRowTpl : AxisNameTpl :=
  { tpl := [TplPart.lit "sub-", TplPart.var "subject"], entities := ["subject"] }

/-- Two QC entities whose row-template bindings produce the same string
`sub-01`. -/
def exQCEnts : List QCEntity :=
  [ { images := ["a.nii"], entities := [("subject", "01")],
      tpl_name := [TplPart.lit "e1"], tpl_column_name := [TplPart.lit "T1w"] },
    { images := ["b.nii"], entities := [("subject", "01"), ("task", "rest")],
      tpl_name := [TplPart.lit "e2"], tpl_column_name := [TplPart.lit "T2w"] } ]

/-- A concrete entity object for the update example. -/
def exEntity : Obj :=
  [("rating", JVal.null), ("comment", JVal.str ""),
   ("failed", JVal.null), ("name", JVal.str "e1")]

/-- A concrete request body for the update example: `name` and `id` are not
updatable fields. -/
def exData : Obj :=
  [("rating", JVal.int 2), ("comment", JVal.str "ok"),
   ("name", JVal.str "x"), ("id", JVal.int 1)]

/-! ### Database-name parsing (`niviz_rater/utils.py`) -/

/-- Python strings, as character lists, for `split`/`join` reasoning. -/
abbrev PyStr := List Char

/-- Python `s.split(sep)` for a single-character separator. -/
def splitOn1 (sep : Char) : PyStr → List PyStr
  | [] => [[]]
  | c :: rest =>
    if c = sep then [] :: splitOn1 sep rest
    else
      match splitOn1 sep rest with
      | [] => [[c]]
      | g :: gs => (c :: g) :: gs

/-- Python `sep.join(parts)` for a single-character separator. -/
def joinWith (sep : Char) : List PyStr → PyStr
  | [] => []
  | [x] => x
  | x :: xs => x ++ sep :: joinWith sep xs

/-- `utils.parse_db_name`: `fields = db_name.split("_")`, study is
`fields[0]`, pipeline is `"_".join(fields[1:])`. -/
def parse_db_name (db_name : PyStr) : PyStr × PyStr :=
  let fields := splitOn1 '_' db_name
  (fields.headD [], joinWith '_' fields.tail)

/-- The database-name binding used by `utils.set_db`:
`db_name = f"{study}_{pipeline}"`. -/
def set_db_name (study pipeline : PyStr) : PyStr :=
  study ++ '_' :: pipeline

/-! ### Association-list lemmas -/

theorem lookupKV_append (k : String) (a b : AttrMap) :
    lookupKV k (a ++ b) = (lookupKV k a).or (lookupKV k b) := by
  induction a with
  | nil => simp [lookupKV]
  | cons kv rest ih =>
    by_cases h : kv.1 = k <;> simp [lookupKV, h, ih]

theorem lookupKV_eq_none_iff (k : String) (m : AttrMap) :
    lookupKV k m = none ↔ k ∉ keysOf m := by
  induction m with
  | nil => simp [lookupKV, keysOf]
  | cons kv rest ih =>
    obtain ⟨k1, v1⟩ := kv
    by_cases h : k1 = k
    · subst h
      simp [lookupKV, keysOf]
    · have h' : ¬ k = k1 := fun he => h he.symm
      simp [lookupKV, keysOf, h, h', ih]

theorem hasKey_iff (k : String) (m : AttrMap) :
    hasKey k m = true ↔ k ∈ keysOf m := by
  rw [hasKey, Option.isSome_iff_ne_none, ne_eq, lookupKV_eq_none_iff]
  simp

theorem mem_of_lookupKV {k v : String} {m : AttrMap} (h : lookupKV k m = some v) :
    (k, v) ∈ m := by
  induction m with
  | nil => simp [lookupKV] at h
  | cons kv rest ih =>
    obtain ⟨k1, v1⟩ := kv
    by_cases hk : k1 = k
    · subst hk
      simp [lookupKV] at h
      subst h
      exact List.mem_cons_self _ _
    · simp [lookupKV, hk] at h
      exact List.mem_cons_of_mem _ (ih h)

theorem lookupKV_of_mem {k v : String} {m : AttrMap}
    (hnd : (keysOf m).Nodup) (h : (k, v) ∈ m) : lookupKV k m = some v := by
  induction m with
  | nil => simp at h
  | cons kv rest ih =>
    obtain ⟨k1, v1⟩ := kv
    rw [keysOf, List.map_cons, List.nodup_cons] at hnd
    rcases List.mem_cons.1 h with heq | hmem
    · rw [Prod.mk.injEq] at heq
      obtain ⟨hk, hv⟩ := heq
      subst hk
      subst hv
      simp [lookupKV]
    · have hne : ¬ k1 = k := by
        intro he
        subst he
        have h2 := List.mem_map_of_mem Prod.fst hmem
        exact hnd.1 h2
      simp [lookupKV, hne]
      exact ih hnd.2 hmem

theorem lookupKV_map_update (k : String) (big small : AttrMap) :
    lookupKV k (big.map (fun kv =>
      match lookupKV kv.1 small with
      | some w => (kv.1, w)
      | none => kv)) =
    (lookupKV k big).map (fun v => ((lookupKV k small).getD v)) := by
  induction big with
  | nil => simp [lookupKV]
  | cons kv rest ih =>
    obtain ⟨k1, v1⟩ := kv
    by_cases h : k1 = k
    · subst h
      rcases hs : lookupKV k1 small with _ | w <;> simp [lookupKV, hs]
    · rcases hs : lookupKV k1 small with _ | w <;> simp [lookupKV, hs, h, ih]

theorem lookupKV_filter_fresh (k : String) (big small : AttrMap) :
    lookupKV k (small.filter (fun kv => !hasKey kv.1 big)) =
    if hasKey k big then none else lookupKV k small := by
  induction small with
  | nil => simp [lookupKV]
  | cons kv rest ih =>
    obtain ⟨k1, v1⟩ := kv
    by_cases hk : k1 = k
    · subst hk
      rcases hb : hasKey k1 big with _ | _
      · simp [List.filter_cons, hb, lookupKV]
      · simp [List.filter_cons, hb, ih, lookupKV]
    · rcases hb : hasKey k1 big with _ | _
      · simp [List.filter_cons, hb, lookupKV, hk, ih]
      · simp [List.filter_cons, hb, lookupKV, hk, ih]

/-- The merged dict looks up `small` first, then `big`. -/
theorem lookupKV_dictUpdate (k : String) (big small : AttrMap) :
    lookupKV k (dictUpdate big small) = (lookupKV k small).or (lookupKV k big) := by
  rw [dictUpdate, lookupKV_append, lookupKV_map_update, lookupKV_filter_fresh]
  cases hb : lookupKV k big with
  | none =>
    have : ¬ hasKey k big = true := by
      simp [hasKey, hb]
    simp [this, Option.or]
    cases lookupKV k small <;> simp
  | some v =>
    have : hasKey k big = true := by simp [hasKey, hb]
    simp [this]
    cases lookupKV k small <;> simp [Option.or]

theorem dictEqB_iff {a b : AttrMap} (ha : (keysOf a).Nodup) (hb : (keysOf b).Nodup) :
    dictEqB a b = true ↔ ∀ k, lookupKV k a = lookupKV k b := by
  constructor
  · intro h k
    rw [dictEqB, Bool.and_eq_true, List.all_eq_true, List.all_eq_true] at h
    cases hl : lookupKV k a with
    | some v =>
      have := h.1 (k, v) (mem_of_lookupKV hl)
      simp at this
      rw [this]
    | none =>
      cases hr : lookupKV k b with
      | none => rfl
      | some w =>
        have := h.2 (k, w) (mem_of_lookupKV hr)
        simp at this
        rw [hl] at this
        exact absurd this (by simp)
  · intro h
    rw [dictEqB, Bool.and_eq_true, List.all_eq_true, List.all_eq_true]
    constructor
    · rintro ⟨k, v⟩ hm
      simp
      rw [← h k]
      exact lookupKV_of_mem ha hm
    · rintro ⟨k, v⟩ hm
      simp
      rw [h k]
      exact lookupKV_of_mem hb hm

theorem keysOf_map_update (big small : AttrMap) :
    keysOf (big.map (fun kv =>
      match lookupKV kv.1 small with
      | some w => (kv.1, w)
      | none => kv)) = keysOf big := by
  rw [keysOf, keysOf, List.map_map]
  apply List.map_congr_left
  intro kv _
  rcases hl : lookupKV kv.1 small with _ | w <;> simp [Function.comp, hl]

theorem keysOf_dictUpdate_nodup {big small : AttrMap}
    (hbig : (keysOf big).Nodup) (hsmall : (keysOf small).Nodup) :
    (keysOf (dictUpdate big small)).Nodup := by
  rw [dictUpdate, keysOf, List.map_append, ← keysOf, ← keysOf, keysOf_map_update,
    List.nodup_append]
  refine ⟨hbig, ?_, ?_⟩
  · exact List.Nodup.sublist
      (List.Sublist.map Prod.fst (List.filter_sublist small)) hsmall
  · intro k hk1 hk2
    rw [keysOf, List.mem_map] at hk2
    obtain ⟨kv2, hm2, he2⟩ := hk2
    rw [List.mem_filter] at hm2
    have hfresh : hasKey kv2.1 big = false := by
      simpa using hm2.2
    have hmem : hasKey kv2.1 big = true := by
      rw [hasKey_iff, he2]
      exact hk1
    rw [hmem] at hfresh
    exact Bool.noConfusion hfresh

/-- Characterization of `_is_subdict`: with well-formed dicts, `small` is a
subdict of `big` iff every key of `small` is present in `big` with the same
value. -/
theorem _is_subdict_iff {big small : AttrMap}
    (hbig : (keysOf big).Nodup) (hsmall : (keysOf small).Nodup) :
    _is_subdict big small = true ↔ ∀ kv ∈ small, lookupKV kv.1 big = some kv.2 := by
  rw [_is_subdict, dictEqB_iff (keysOf_dictUpdate_nodup hbig hsmall) hbig]
  constructor
  · intro h kv hm
    have := h kv.1
    rw [lookupKV_dictUpdate, lookupKV_of_mem hsmall hm] at this
    simpa [Option.or] using this.symm
  · intro h k
    rw [lookupKV_dictUpdate]
    cases hs : lookupKV k small with
    | none => simp [Option.or]
    | some w =>
      have := h (k, w) (mem_of_lookupKV hs)
      simp at this
      simp [Option.or, this]

/-- C3: a record matches a slot descriptor (`_is_subdict record.entities
pattern`) iff every key of the pattern is present in the record's attribute
map with an equal value; and a record attribute whose key does not occur in
the pattern never affects the match outcome. -/
theorem c3_slot_matching_exact_subset (big small : AttrMap)
    (hbig : (keysOf big).Nodup) (hsmall : (keysOf small).Nodup) :
    (_is_subdict big small = true ↔ ∀ kv ∈ small, lookupKV kv.1 big = some kv.2)
    ∧ (∀ k v, k ∉ keysOf big → k ∉ keysOf small →
        _is_subdict ((k, v) :: big) small = _is_subdict big small) := by
  refine ⟨_is_subdict_iff hbig hsmall, ?_⟩
  intro k v hkb hks
  have hbig' : (keysOf ((k, v) :: big)).Nodup := by
    rw [keysOf, List.map_cons, List.nodup_cons]
    exact ⟨hkb, hbig⟩
  have h1 := _is_subdict_iff hbig' hsmall
  have h2 := _is_subdict_iff hbig hsmall
  have hsame : (∀ kv ∈ small, lookupKV kv.1 ((k, v) :: big) = some kv.2) ↔
      (∀ kv ∈ small, lookupKV kv.1 big = some kv.2) := by
    have hside : ∀ kv ∈ small, lookupKV kv.1 ((k, v) :: big) = lookupKV kv.1 big := by
      intro kv hm
      have hne : ¬ k = kv.1 := by
        intro he
        apply hks
        rw [he]
        exact List.mem_map_of_mem Prod.fst hm
      simp [lookupKV, hne]
    constructor <;> intro hh kv hm
    · rw [← hside kv hm]
      exact hh kv hm
    · rw [hside kv hm]
      exact hh kv hm
  rw [Bool.eq_iff_iff, h1, h2]
  exact hsame

/-- C3 witness: the `desc=T1` pattern matches a record with an extra
`subject` key, and adding a further unrelated key does not change the
outcome. -/
theorem c3_witness :
    _is_subdict [("subject", "01"), ("desc", "T1")] [("desc", "T1")] = true
    ∧ _is_subdict (("extra", "x") :: [("subject", "01"), ("desc", "T1")])
        [("desc", "T1")] =
      _is_subdict [("subject", "01"), ("desc", "T1")] [("desc", "T1")] := by
  have h := c3_slot_matching_exact_subset [("subject", "01"), ("desc", "T1")]
    [("desc", "T1")] (by decide) (by decide)
  constructor
  · rw [h.1]
    decide
  · exact h.2 "extra" "x" (by decide) (by decide)

/-! ### C10: `parse_db_name` inverts the `set_db` naming -/

theorem splitOn1_ne_nil (sep : Char) (l : PyStr) : splitOn1 sep l ≠ [] := by
  cases l with
  | nil => simp [splitOn1]
  | cons c rest =>
    by_cases h : c = sep
    · simp [splitOn1, h]
    · simp only [splitOn1, if_neg h]
      rcases hs : splitOn1 sep rest with _ | ⟨g, gs⟩ <;> simp

theorem splitOn1_append_sep {sep : Char} {s : PyStr} (h : sep ∉ s) (t : PyStr) :
    splitOn1 sep (s ++ sep :: t) = s :: splitOn1 sep t := by
  induction s with
  | nil => simp [splitOn1]
  | cons c s ih =>
    have hc : ¬ c = sep := by
      intro he
      exact h (by rw [he]; exact List.mem_cons_self _ _)
    have hs : sep ∉ s := fun hm => h (List.mem_cons_of_mem _ hm)
    simp only [List.cons_append, splitOn1, if_neg hc]
    have happ : s.append (sep :: t) = s ++ sep :: t := rfl
    rw [happ, ih hs]

theorem joinWith_cons_cons (sep c : Char) (g : PyStr) (gs : List PyStr) :
    joinWith sep ((c :: g) :: gs) = c :: joinWith sep (g :: gs) := by
  cases gs with
  | nil => simp [joinWith]
  | cons g2 gs2 => simp [joinWith]

theorem joinWith_splitOn1 (sep : Char) (t : PyStr) :
    joinWith sep (splitOn1 sep t) = t := by
  induction t with
  | nil => simp [splitOn1, joinWith]
  | cons c t ih =>
    by_cases h : c = sep
    · subst h
      simp only [splitOn1, if_pos rfl]
      rcases hs : splitOn1 c t with _ | ⟨g, gs⟩
      · exact absurd hs (splitOn1_ne_nil c t)
      · rw [hs] at ih
        simp [joinWith, ih]
    · simp only [splitOn1, if_neg h]
      rcases hs : splitOn1 sep t with _ | ⟨g, gs⟩
      · exact absurd hs (splitOn1_ne_nil sep t)
      · rw [hs] at ih
        simp only [hs]
        rw [joinWith_cons_cons, ih]

/-- C10: for every study string with no underscore and every pipeline
string, `parse_db_name` applied to the `f"{study}_{pipeline}"` database
name used by `set_db` returns exactly `(study, pipeline)`. -/
theorem c10_parse_db_name_left_inverse (study pipeline : PyStr)
    (h : '_' ∉ study) :
    parse_db_name (set_db_name study pipeline) = (study, pipeline) := by
  rw [parse_db_name, set_db_name, splitOn1_append_sep h]
  simp [joinWith_splitOn1]

/-- C10 witness: `parse_db_name "spins_fmri_qc" = ("spins", "fmri_qc")`. -/
theorem c10_witness :
    '_' ∉ "spins".toList ∧
    parse_db_name (set_db_name "spins".toList "fmri_qc".toList) =
      ("spins".toList, "fmri_qc".toList) :=
  ⟨by decide, c10_parse_db_name_left_inverse _ _ (by decide)⟩

/-! ### C9: the unrated count is governed by the tri-state `failed` alone -/

/-- C9: `numberOfUnrated` counts exactly the entities whose tri-state
`failed` field is unset: it equals the number of `failed IS NULL` rows, it
depends only on the entities' `failed` fields (so an assigned `Rating` never
affects it), and a one-entity store counts 1 iff `failed` is unset,
whatever the rating. -/
theorem c9_unrated_counts_failed_unset :
    (∀ db : DB, (summary db).numberOfUnrated =
      (db.entities.filter (fun e => e.failed.isNone)).length)
    ∧ (∀ db db' : DB,
        db.entities.map (fun e => e.failed) = db'.entities.map (fun e => e.failed) →
        (summary db).numberOfUnrated = (summary db').numberOfUnrated)
    ∧ (∀ e : EntityRow,
        (summary { emptyDB with entities := [e] }).numberOfUnrated =
          if e.failed = none then 1 else 0) := by
  refine ⟨fun db => rfl, ?_, ?_⟩
  · intro db db' hmap
    show (db.entities.filter (fun e => e.failed.isNone)).length =
      (db'.entities.filter (fun e => e.failed.isNone)).length
    rw [← List.countP_eq_length_filter, ← List.countP_eq_length_filter]
    have h1 : ∀ l : List EntityRow, l.countP (fun e => e.failed.isNone) =
        (l.map (fun e => e.failed)).countP (fun o => o.isNone) := by
      intro l
      rw [List.countP_map]
      rfl
    rw [h1, h1, hmap]
  · intro e
    show (List.filter (fun e => e.failed.isNone) [e]).length = _
    rcases hf : e.failed with _ | b <;> simp [List.filter, hf]

/-- C9 witness: a rated entity with `failed` unset counts as unrated; an
unrated-rating entity with `failed` set does not. -/
theorem c9_witness :
    (summary { emptyDB with entities :=
      [{ id := 1, name := "n", columnname := "c", rowname := "r",
         component_id := 1, comment := some "", failed := none,
         rating := some "Good" }] }).numberOfUnrated = 1 ∧
    (summary { emptyDB with entities :=
      [{ id := 2, name := "n", columnname := "c", rowname := "r",
         component_id := 1, comment := some "", failed := some false,
         rating := none }] }).numberOfUnrated = 0 := by
  constructor
  · rw [c9_unrated_counts_failed_unset.2.2]
    simp
  · rw [c9_unrated_counts_failed_unset.2.2]
    simp

/-! ### C8: rating updates are restricted to {rating, comment, failed} -/

theorem lookupJ_setAttr_same (obj : Obj) (k : String) (v : JVal) :
    lookupJ k (setAttr k v obj) =
      if (lookupJ k obj).isSome then some v else none := by
  induction obj with
  | nil => rfl
  | cons kv rest ih =>
    obtain ⟨k1, v1⟩ := kv
    by_cases h : k1 = k
    · simp [setAttr, lookupJ, h]
    · simp [setAttr, lookupJ, h, ih]

theorem lookupJ_setAttr_other (obj : Obj) {k k' : String} (h : ¬ k' = k)
    (v : JVal) : lookupJ k' (setAttr k v obj) = lookupJ k' obj := by
  induction obj with
  | nil => rfl
  | cons kv rest ih =>
    obtain ⟨k1, v1⟩ := kv
    by_cases h1 : k1 = k
    · subst h1
      have h2 : ¬ k1 = k' := fun he => h he.symm
      simp [setAttr, lookupJ, h2, ih]
    · by_cases h2 : k1 = k'
      · simp [setAttr, lookupJ, h1, h2, h]
      · simp [setAttr, lookupJ, h1, h2, ih]

/-- The fold applying the present fields of `data`, as in `update_rating`. -/
def applyKeys (data : Obj) (ks : List String) (obj : Obj) : Obj :=
  ks.foldl (fun ob k =>
    match lookupJ k data with
    | some v => setAttr k v ob
    | none => ob) obj

theorem applyKeys_cons (data : Obj) (k1 : String) (rest : List String)
    (obj : Obj) :
    applyKeys data (k1 :: rest) obj =
      applyKeys data rest (match lookupJ k1 data with
        | some v => setAttr k1 v obj
        | none => obj) := rfl

theorem applyKeys_not_mem (data : Obj) (ks : List String) :
    ∀ (obj : Obj) {k : String}, k ∉ ks →
      lookupJ k (applyKeys data ks obj) = lookupJ k obj := by
  induction ks with
  | nil =>
    intro obj k _
    rfl
  | cons k1 rest ih =>
    intro obj k h
    have hne : ¬ k = k1 := fun he => h (he ▸ List.mem_cons_self _ _)
    have hrest : k ∉ rest := fun hm => h (List.mem_cons_of_mem _ hm)
    rw [applyKeys_cons]
    rcases hd : lookupJ k1 data with _ | w <;> simp only [hd]
    · exact ih _ hrest
    · rw [ih _ hrest, lookupJ_setAttr_other _ hne w]

theorem applyKeys_mem (data : Obj) (ks : List String) :
    ∀ (obj : Obj) {k : String} {v : JVal}, ks.Nodup → k ∈ ks →
      lookupJ k data = some v → (lookupJ k obj).isSome = true →
      lookupJ k (applyKeys data ks obj) = some v := by
  induction ks with
  | nil =>
    intro obj k v _ hk
    simp at hk
  | cons k1 rest ih =>
    intro obj k v hnd hk hv hob
    rw [List.nodup_cons] at hnd
    by_cases he : k = k1
    · subst he
      rw [applyKeys_cons]
      simp only [hv]
      rw [applyKeys_not_mem data rest _ hnd.1, lookupJ_setAttr_same, if_pos hob]
    · have hk' : k ∈ rest := by
        rcases List.mem_cons.1 hk with h1 | h1
        · exact absurd h1 he
        · exact h1
      rw [applyKeys_cons]
      rcases hd : lookupJ k1 data with _ | w <;> simp only [hd]
      · exact ih _ hnd.2 hk' hv hob
      · refine ih _ hnd.2 hk' hv ?_
        rw [lookupJ_setAttr_other _ he w]
        exact hob

/-- C8: a rating update applies only fields from `{rating, comment, failed}`
to the entity — any other attribute keeps its value whatever the request
body holds — and a store failure while persisting is answered with a 400
status and the persisted entity unchanged; on success the present expected
fields take the request's values (for fields the entity possesses) and the
status is 200. -/
theorem c8_update_rating_restricted (entity data : Obj) (saveOk : Bool) :
    (∀ k, k ∉ ["rating", "comment", "failed"] →
      lookupJ k (update_rating entity data saveOk).1 = lookupJ k entity)
    ∧ (saveOk = false → update_rating entity data saveOk = (entity, 400))
    ∧ (saveOk = true → (update_rating entity data saveOk).2 = 200 ∧
        ∀ k ∈ ["rating", "comment", "failed"], ∀ v : JVal,
          lookupJ k data = some v → (lookupJ k entity).isSome →
          lookupJ k (update_rating entity data saveOk).1 = some v) := by
  refine ⟨?_, ?_, ?_⟩
  · intro k hk
    cases saveOk with
    | false => rfl
    | true =>
      show lookupJ k (applyKeys data
        (["rating", "comment", "failed"].filter
          (fun k => (lookupJ k data).isSome)) entity) = lookupJ k entity
      apply applyKeys_not_mem
      intro hmem
      exact hk (List.mem_of_mem_filter hmem)
  · intro h
    subst h
    rfl
  · intro h
    subst h
    refine ⟨rfl, ?_⟩
    intro k hk v hv hob
    show lookupJ k (applyKeys data
      (["rating", "comment", "failed"].filter
        (fun k => (lookupJ k data).isSome)) entity) = some v
    apply applyKeys_mem data _ entity _ _ hv hob
    · exact List.Nodup.filter _ (by decide)
    · rw [List.mem_filter]
      exact ⟨hk, by rw [hv]; rfl⟩

/-- C8 witness: a body `{rating: 2, comment: "ok", name: "x", id: 1}`
updates `comment`, leaves `name` alone, and a failing save answers 400 with
the entity unchanged. -/
theorem c8_witness :
    lookupJ "name" (update_rating exEntity exData true).1 =
      lookupJ "name" exEntity
    ∧ update_rating exEntity exData false = (exEntity, 400)
    ∧ lookupJ "comment" (update_rating exEntity exData true).1 =
      some (JVal.str "ok") :=
  ⟨(c8_update_rating_restricted exEntity exData true).1 "name" (by decide),
   (c8_update_rating_restricted exEntity exData false).2.1 rfl,
   ((c8_update_rating_restricted exEntity exData true).2.2 rfl).2 "comment"
     (by decide) (JVal.str "ok") (by decide) (by decide)⟩

/-! ### C7: the missing-entity query is not recovered (code bug) -/

/-- C7 (evaluating the code at the failing input): querying an entity id
absent from the store makes `get_entity_info` raise an uncaught
`AttributeError` — never the empty 404 response the spec promises — because
`Query.get` reports a missing id by returning `None` rather than raising
the `IndexError` the handler was written for. -/
theorem c7_missing_entity_raises (db : DB) (eid : Nat)
    (h : ∀ e ∈ db.entities, ¬ e.id = eid) :
    get_entity_info db eid = Except.error PyExc.attributeError ∧
    ∀ resp, ¬ get_entity_info db eid = Except.ok resp := by
  have hq : queryGetEntity db eid = none := by
    rw [queryGetEntity, List.find?_eq_none]
    intro e he
    simp [h e he]
  constructor
  · rw [get_entity_info, hq]
  · intro resp hok
    rw [get_entity_info, hq] at hok
    exact Except.noConfusion hok

/-- C7 witness: id 1 against an empty store. -/
theorem c7_witness :
    get_entity_info emptyDB 1 = Except.error PyExc.attributeError :=
  (c7_missing_entity_raises emptyDB 1 (by intro e he; simp [emptyDB] at he)).1

/-! ### C2: the exported row aligns entities with the sorted column list -/

theorem rowCells_nil_cols (entities : List EntityRow) :
    rowCells entities [] = [] := by
  cases entities <;> rfl

/-- C2: for columns sorted by name and a row whose entities are sorted by
column name with at most one entity per column (strict sorting), all
referring to listed columns, the single-cursor lockstep walk of `_make_row`
emits, for each column in order, the `(rating-or-empty,
"Fail"/"Pass"/"", comment-or-empty)` triplet of the entity at that
column when one exists and the empty triplet otherwise. -/
theorem c2_make_row_lockstep (entities : List EntityRow) (columns : List String)
    (hcols : columns.Sorted (· < ·))
    (hents : (entities.map (fun e => e.columnname)).Sorted (· < ·))
    (hmem : ∀ e ∈ entities, e.columnname ∈ columns) :
    rowCells entities columns = columns.map (fun c =>
      match entities.find? (fun e => decide (e.columnname = c)) with
      | some e => entry e
      | none => ("", "", "")) := by
  induction columns generalizing entities with
  | nil => rw [rowCells_nil_cols, List.map_nil]
  | cons c cs ih =>
    rw [List.sorted_cons] at hcols
    cases entities with
    | nil =>
      rw [List.map_cons]
      show ("", "", "") :: rowCells [] cs = _
      rw [ih [] hcols.2 (by simp) (by simp)]
      rfl
    | cons e es =>
      rw [List.map_cons, List.sorted_cons] at hents
      by_cases he : e.columnname = c
      · show (if e.columnname = c then entry e :: rowCells es cs
          else ("", "", "") :: rowCells (e :: es) cs) = _
        rw [if_pos he, List.map_cons]
        have hfind : (e :: es).find? (fun x => decide (x.columnname = c)) = some e := by
          rw [List.find?_cons_of_pos]
          simp [he]
        rw [hfind]
        have hmem' : ∀ x ∈ es, x.columnname ∈ cs := by
          intro x hx
          have hgt : e.columnname < x.columnname :=
            hents.1 _ (List.mem_map_of_mem _ hx)
          have hxc : x.columnname ∈ c :: cs := hmem x (List.mem_cons_of_mem _ hx)
          rcases List.mem_cons.1 hxc with h1 | h1
          · exact absurd (h1 ▸ hgt) (by rw [he]; exact lt_irrefl c)
          · exact h1
        rw [ih es hcols.2 hents.2 hmem']
        apply congrArg
        apply List.map_congr_left
        intro c' hc'
        have hlt : c < c' := hcols.1 c' hc'
        have hne : ¬ e.columnname = c' := by
          rw [he]
          exact ne_of_lt hlt
        rw [List.find?_cons_of_neg]
        simp [hne]
      · show (if e.columnname = c then entry e :: rowCells es cs
          else ("", "", "") :: rowCells (e :: es) cs) = _
        rw [if_neg he, List.map_cons]
        have hecs : e.columnname ∈ cs := by
          rcases List.mem_cons.1 (hmem e (List.mem_cons_self _ _)) with h1 | h1
          · exact absurd h1 he
          · exact h1
        have hclt : c < e.columnname := hcols.1 _ hecs
        have hfind : (e :: es).find? (fun x => decide (x.columnname = c)) = none := by
          rw [List.find?_eq_none]
          intro x hx
          rcases List.mem_cons.1 hx with h1 | h1
          · simp [h1, he]
          · have hgt : e.columnname < x.columnname :=
              hents.1 _ (List.mem_map_of_mem _ h1)
            have : ¬ x.columnname = c := by
              intro hxc
              rw [hxc] at hgt
              exact absurd (lt_trans hclt hgt) (lt_irrefl c)
            simp [this]
        rw [hfind]
        have hmem' : ∀ x ∈ e :: es, x.columnname ∈ cs := by
          intro x hx
          rcases List.mem_cons.1 hx with h1 | h1
          · rw [h1]
            exact hecs
          · have hgt : e.columnname < x.columnname :=
              hents.1 _ (List.mem_map_of_mem _ h1)
            rcases List.mem_cons.1 (hmem x (List.mem_cons_of_mem _ h1)) with h2 | h2
            · exfalso
              have hcx : c < x.columnname := lt_trans hclt hgt
              rw [h2] at hcx
              exact lt_irrefl c hcx
            · exact h2
        rw [ih (e :: es) hcols.2 (by rw [List.map_cons, List.sorted_cons]; exact hents) hmem']

/-- C2 witness: columns `[A, B, C]`, entities only in `A` and `C` — the row
is a non-empty triplet for `A`, the empty triplet for `B`, a non-empty
triplet for `C`, in that order. -/
theorem c2_witness :
    rowCells
      [{ id := 1, name := "a", columnname := "A", rowname := "r",
         component_id := 1, comment := some "good", failed := some false,
         rating := some "Nice" },
       { id := 2, name := "c", columnname := "C", rowname := "r",
         component_id := 1, comment := none, failed := some true,
         rating := none }]
      ["A", "B", "C"] =
      [("Nice", "Pass", "good"), ("", "", ""), ("", "Fail", "")] := by
  rw [c2_make_row_lockstep _ _
    (by simp [List.sorted_cons]; decide)
    (by simp [List.sorted_cons]; decide)
    (by intro e he; rcases List.mem_cons.1 he with h | h
        · rw [h]; simp
        · simp at h; rw [h]; simp)]
  rfl

/-! ### C5: row insertion is idempotent per resolved name -/

theorem insertRowName_nodup {rows : List String} (h : rows.Nodup) (n : String) :
    (insertRowName rows n).Nodup := by
  rw [insertRowName]
  by_cases hm : n ∈ rows
  · rw [if_pos hm]
    exact h
  · rw [if_neg hm, List.nodup_append]
    refine ⟨h, List.nodup_singleton n, ?_⟩
    intro a ha hb
    rw [List.mem_singleton] at hb
    subst hb
    exact hm ha

theorem mem_insertRowName (rows : List String) (n m : String) :
    m ∈ insertRowName rows n ↔ m ∈ rows ∨ m = n := by
  rw [insertRowName]
  by_cases hm : n ∈ rows
  · rw [if_pos hm]
    constructor
    · exact Or.inl
    · rintro (h | rfl)
      · exact h
      · exact hm
  · rw [if_neg hm]
    simp

theorem foldl_insertRowName_nodup (ns : List String) :
    ∀ rows : List String, rows.Nodup → (ns.foldl insertRowName rows).Nodup := by
  induction ns with
  | nil =>
    intro rows h
    exact h
  | cons n ns ih =>
    intro rows h
    exact ih _ (insertRowName_nodup h n)

theorem mem_foldl_insertRowName (ns : List String) :
    ∀ (rows : List String) (m : String),
      m ∈ ns.foldl insertRowName rows ↔ m ∈ rows ∨ m ∈ ns := by
  induction ns with
  | nil => simp
  | cons n ns ih =>
    intro rows m
    rw [List.foldl_cons, ih, mem_insertRowName, List.mem_cons]
    constructor
    · rintro ((h | h) | h)
      · exact Or.inl h
      · exact Or.inr (Or.inl h)
      · exact Or.inr (Or.inr h)
    · rintro (h | h | h)
      · exact Or.inl (Or.inl h)
      · exact Or.inl (Or.inr h)
      · exact Or.inr h

/-- C5: within one run, `add_rownames` persists at most one `TableRow` per
distinct resolved row name — the result has no duplicates and each name is
at most once in the store — and a name is present afterwards iff it was
present before or some QCEntity's row-template bindings resolve to it (so
two QCEntities resolving to the same string share one row, and a duplicate
insert, refused by the store's uniqueness constraint, is discarded rather
than failing the run). -/
theorem c5_row_insert_idempotent (rows : List String) (rowtpl : AxisNameTpl)
    (entities : List QCEntity) (hnd : rows.Nodup)
    (_hres : ∀ e ∈ entities, (make_rowname rowtpl e.entities).isSome = true) :
    (add_rownames rows rowtpl entities).Nodup
    ∧ (∀ n, n ∈ add_rownames rows rowtpl entities ↔
        n ∈ rows ∨ ∃ e ∈ entities, make_rowname rowtpl e.entities = some n)
    ∧ ∀ n, (add_rownames rows rowtpl entities).count n ≤ 1 := by
  have h1 : (add_rownames rows rowtpl entities).Nodup :=
    foldl_insertRowName_nodup _ _ hnd
  refine ⟨h1, ?_, fun n => List.nodup_iff_count_le_one.1 h1 n⟩
  intro n
  show n ∈ List.foldl insertRowName rows
    ((entities.filterMap (fun e => make_rowname rowtpl e.entities)).dedup) ↔ _
  rw [mem_foldl_insertRowName, List.mem_dedup, List.mem_filterMap]

/-- C5 witness: two QCEntities resolving to `sub-01` yield a single new row
next to a pre-existing one. -/
theorem c5_witness :
    (add_rownames ["existing"] exRowTpl exQCEnts).Nodup ∧
    ("sub-01" ∈ add_rownames ["existing"] exRowTpl exQCEnts ↔
      "sub-01" ∈ ["existing"] ∨
      ∃ e ∈ exQCEnts, make_rowname exRowTpl e.entities = some "sub-01") :=
  ⟨(c5_row_insert_idempotent ["existing"] exRowTpl exQCEnts
      (by decide) (by decide)).1,
   (c5_row_insert_idempotent ["existing"] exRowTpl exQCEnts
      (by decide) (by decide)).2.1 "sub-01"⟩

/-! ### C4: what a group contributes -/

theorem head?_filter_eq_find? {α : Type} (p : α → Bool) (l : List α) :
    (l.filter p).head? = l.find? p := by
  induction l with
  | nil => rfl
  | cons a as ih =>
    by_cases h : p a
    · rw [List.filter_cons_of_pos h, List.find?_cons_of_pos _ h]
      rfl
    · rw [List.filter_cons_of_neg (by simpa using h),
        List.find?_cons_of_neg _ (by simpa using h), ih]

theorem find_matches_ok {group : List BidsFile} {d : AttrMap}
    (h : (group.filter (fun b => _is_subdict b.entities d)).length ≤ 1) :
    find_matches group d =
      .ok (group.find? (fun b => _is_subdict b.entities d)) := by
  simp only [find_matches]
  rw [if_neg (by omega), head?_filter_eq_find?]

theorem except_bind_ok {ε α β : Type} (x : α) (f : α → Except ε β) :
    (do
      let a ← (Except.ok x : Except ε α)
      f a) = f x := rfl

theorem mapE_ok_of {α β ε : Type} {f : α → Except ε β} {g : α → β}
    (l : List α) (h : ∀ a ∈ l, f a = .ok (g a)) :
    mapE f l = .ok (l.map g) := by
  induction l with
  | nil => rfl
  | cons a as ih =>
    rw [mapE, h a (List.mem_cons_self _ _),
      ih (fun x hx => h x (List.mem_cons_of_mem _ hx))]
    rfl

/-- C4: for a group in which no slot pattern is ambiguous, the loop body of
`build_qc_entities` succeeds (a slot with zero matching records is dropped
without error) and produces exactly the spec-described result: a `QCEntity`
iff at least one slot resolved, carrying the resolved image paths in slot
order with missing slots omitted, and attribute values for the group-by
keys taken from the first resolved slot's record. -/
theorem c4_group_contribution (spec : ConfigComponent) (group : List BidsFile)
    (h : ∀ d ∈ spec.image_descriptors,
      (group.filter (fun b => _is_subdict b.entities d)).length ≤ 1) :
    processGroup spec group = .ok (specQCEntityOfGroup spec group) := by
  have hmap : mapE (fun i => find_matches group i) spec.image_descriptors =
      .ok (spec.image_descriptors.map
        (fun d => group.find? (fun b => _is_subdict b.entities d))) :=
    mapE_ok_of _ (fun d hd => find_matches_ok (h d hd))
  simp only [processGroup, hmap, specQCEntityOfGroup, except_bind_ok,
    List.filterMap_map, Function.id_comp]
  rcases hres : spec.image_descriptors.filterMap
      (fun d => group.find? (fun b => _is_subdict b.entities d)) with _ | ⟨m0, tl⟩ <;>
    simp only [hres] <;> rfl

/-- C4 witness: a one-record group resolves the `T1` slot and drops
nothing else. -/
theorem c4_witness :
    processGroup exSpec [exFile1] =
    .ok (specQCEntityOfGroup exSpec [exFile1]) :=
  c4_group_contribution exSpec _ (by decide)

/-! ### C1: ambiguity aborts the Component's build -/

theorem find_matches_error_of {group : List BidsFile} {d : AttrMap}
    (h : 2 ≤ (group.filter (fun b => _is_subdict b.entities d)).length) :
    find_matches group d = .error
      { nMatches := (group.filter (fun b => _is_subdict b.entities d)).length,
        descriptor := d } := by
  have hc : 1 < (group.filter (fun b => _is_subdict b.entities d)).length := by
    omega
  simp only [find_matches]
  rw [if_pos hc]

theorem find_matches_error_char {group : List BidsFile} {d : AttrMap}
    {er : MatchError} (h : find_matches group d = .error er) :
    er.descriptor = d ∧
    er.nMatches = (group.filter (fun b => _is_subdict b.entities d)).length ∧
    2 ≤ er.nMatches := by
  simp only [find_matches] at h
  by_cases hl : 1 < (group.filter (fun b => _is_subdict b.entities d)).length
  · rw [if_pos hl] at h
    injection h with h2
    rw [← h2]
    exact ⟨rfl, rfl, hl⟩
  · rw [if_neg hl] at h
    exact Except.noConfusion h

theorem mapE_error_char {α β ε : Type} {f : α → Except ε β} :
    ∀ {l : List α} {er : ε}, mapE f l = .error er → ∃ a ∈ l, f a = .error er := by
  intro l
  induction l with
  | nil =>
    intro er h
    exact absurd h (by simp [mapE])
  | cons x xs ih =>
    intro er h
    rcases hx : f x with er2 | b
    · rw [mapE, hx] at h
      have : (Except.error er2 : Except ε β) >>= (fun b => do
          let bs ← mapE f xs
          pure (b :: bs)) = .error er2 := rfl
      rw [this] at h
      injection h with h2
      subst h2
      exact ⟨x, List.mem_cons_self _ _, hx⟩
    · rw [mapE, hx, except_bind_ok] at h
      rcases hm : mapE f xs with er2 | bs
      · rw [hm] at h
        have : (Except.error er2 : Except ε (List β)) >>= (fun bs =>
            (pure (b :: bs) : Except ε (List β))) = .error er2 := rfl
        rw [this] at h
        injection h with h2
        subst h2
        obtain ⟨a, ha, hfa⟩ := ih hm
        exact ⟨a, List.mem_cons_of_mem _ ha, hfa⟩
      · rw [hm] at h
        exact absurd h (by simp [except_bind_ok])

theorem mapE_ok_char {α β ε : Type} {f : α → Except ε β} :
    ∀ {l : List α} {L : List β}, mapE f l = .ok L → ∀ a ∈ l, ∃ b, f a = .ok b := by
  intro l
  induction l with
  | nil =>
    intro L _ a ha
    simp at ha
  | cons x xs ih =>
    intro L h a ha
    rcases hx : f x with er2 | b
    · rw [mapE, hx] at h
      exact absurd h (by simp [Bind.bind, Except.bind])
    · rw [mapE, hx, except_bind_ok] at h
      rcases hm : mapE f xs with er2 | bs
      · rw [hm] at h
        exact absurd h (by simp [Bind.bind, Except.bind])
      · rcases List.mem_cons.1 ha with h1 | h1
        · exact ⟨b, h1 ▸ hx⟩
        · exact ih hm a h1

theorem processGroup_ok_of_mapE_ok {spec : ConfigComponent}
    {group : List BidsFile} {L : List (Option BidsFile)}
    (hm : mapE (fun i => find_matches group i) spec.image_descriptors = .ok L) :
    ∃ r, processGroup spec group = .ok r := by
  simp only [processGroup, hm, except_bind_ok]
  rcases L.filterMap id with _ | ⟨m0, tl⟩
  · exact ⟨none, rfl⟩
  · exact ⟨_, rfl⟩

theorem processGroup_error_char {spec : ConfigComponent} {group : List BidsFile}
    {er : MatchError} (h : processGroup spec group = .error er) :
    er.descriptor ∈ spec.image_descriptors ∧ 2 ≤ er.nMatches ∧
    er.nMatches =
      (group.filter (fun b => _is_subdict b.entities er.descriptor)).length := by
  rcases hm : mapE (fun i => find_matches group i) spec.image_descriptors with er2 | L
  · have heq : processGroup spec group = .error er2 := by
      simp only [processGroup, hm]
      rfl
    rw [heq] at h
    injection h with h2
    subst h2
    obtain ⟨d, hd, hfd⟩ := mapE_error_char hm
    obtain ⟨hdesc, hn, h2⟩ := find_matches_error_char hfd
    subst hdesc
    exact ⟨hd, h2, hn⟩
  · obtain ⟨r, hr⟩ := processGroup_ok_of_mapE_ok hm
    rw [hr] at h
    exact Except.noConfusion h

theorem processGroup_error_of {spec : ConfigComponent} {group : List BidsFile}
    (h : ∃ d ∈ spec.image_descriptors,
      2 ≤ (group.filter (fun b => _is_subdict b.entities d)).length) :
    ∃ er, processGroup spec group = .error er := by
  rcases hm : mapE (fun i => find_matches group i) spec.image_descriptors with er2 | L
  · refine ⟨er2, ?_⟩
    simp only [processGroup, hm]
    rfl
  · exfalso
    obtain ⟨d, hd, hlen⟩ := h
    obtain ⟨b, hb⟩ := mapE_ok_char hm d hd
    rw [find_matches_error_of hlen] at hb
    exact Except.noConfusion hb

theorem build_qc_entities_error_char {spec : ConfigComponent}
    {files : List BidsFile} {er : MatchError}
    (h : build_qc_entities spec files = .error er) :
    er.descriptor ∈ spec.image_descriptors ∧ 2 ≤ er.nMatches ∧
    ∃ kg ∈ _group_by_entities spec.entities files,
      er.nMatches =
        (kg.2.filter (fun b => _is_subdict b.entities er.descriptor)).length := by
  rcases hm : mapE (fun kg => processGroup spec kg.2)
      (_group_by_entities spec.entities files) with er2 | L
  · have heq : build_qc_entities spec files = .error er2 := by
      simp only [build_qc_entities, hm]
      rfl
    rw [heq] at h
    injection h with h2
    subst h2
    obtain ⟨kg, hkg, hpg⟩ := mapE_error_char hm
    obtain ⟨h1, h2, h3⟩ := processGroup_error_char hpg
    exact ⟨h1, h2, kg, hkg, h3⟩
  · have heq : build_qc_entities spec files = .ok (L.filterMap id) := by
      simp only [build_qc_entities, hm, except_bind_ok]
      rfl
    rw [heq] at h
    exact Except.noConfusion h

theorem build_qc_entities_error_of {spec : ConfigComponent}
    {files : List BidsFile}
    (h : ∃ kg ∈ _group_by_entities spec.entities files,
      ∃ d ∈ spec.image_descriptors,
        2 ≤ (kg.2.filter (fun b => _is_subdict b.entities d)).length) :
    ∃ er, build_qc_entities spec files = .error er := by
  rcases hm : mapE (fun kg => processGroup spec kg.2)
      (_group_by_entities spec.entities files) with er2 | L
  · refine ⟨er2, ?_⟩
    simp only [build_qc_entities, hm]
    rfl
  · exfalso
    obtain ⟨kg, hkg, hd⟩ := h
    obtain ⟨er0, her0⟩ := processGroup_error_of hd
    obtain ⟨b, hb⟩ := mapE_ok_char hm kg hkg
    rw [her0] at hb
    exact Except.noConfusion hb

/-- C1 (amended): if in some group two or more members satisfy a slot
pattern, building the Component fails with an ambiguity error that carries
the match count and the offending slot pattern (but not the group), the
whole Component's index construction is aborted, and no partial `QCEntity`
is persisted — the store is returned untouched. -/
theorem c1_ambiguity_aborts (spec : ConfigComponent) (files : List BidsFile)
    (db : DB) (row_tpl : AxisNameTpl)
    (h : ∃ kg ∈ _group_by_entities spec.entities files,
      ∃ d ∈ spec.image_descriptors,
        2 ≤ (kg.2.filter (fun b => _is_subdict b.entities d)).length) :
    ∃ er : MatchError,
      build_qc_entities spec files = .error er
      ∧ er.descriptor ∈ spec.image_descriptors
      ∧ 2 ≤ er.nMatches
      ∧ (∃ kg ∈ _group_by_entities spec.entities files,
          er.nMatches =
            (kg.2.filter (fun b => _is_subdict b.entities er.descriptor)).length)
      ∧ runComponent db spec row_tpl files = (db, some er) := by
  obtain ⟨er, her⟩ := build_qc_entities_error_of h
  obtain ⟨h1, h2, h3⟩ := build_qc_entities_error_char her
  refine ⟨er, her, h1, h2, h3, ?_⟩
  simp only [runComponent, her]

/-- C1 witness: two same-group records matching the single slot abort the
build against an empty store, leaving it untouched. -/
theorem c1_witness :
    (∃ kg ∈ _group_by_entities exSpec.entities exFiles,
      ∃ d ∈ exSpec.image_descriptors,
        2 ≤ (kg.2.filter (fun b => _is_subdict b.entities d)).length)
    ∧ ∃ er : MatchError,
        build_qc_entities exSpec exFiles = .error er
        ∧ er.descriptor ∈ exSpec.image_descriptors
        ∧ 2 ≤ er.nMatches
        ∧ (∃ kg ∈ _group_by_entities exSpec.entities exFiles,
            er.nMatches =
              (kg.2.filter (fun b => _is_subdict b.entities er.descriptor)).length)
        ∧ runComponent emptyDB exSpec exRowTpl exFiles = (emptyDB, some er) :=
  ⟨by decide, c1_ambiguity_aborts exSpec exFiles emptyDB exRowTpl (by decide)⟩

/-- C1 counterexample to the claim as stated: the ambiguity failure does
not name the group. Concretely, the single group of `exFiles` has key
`["01"]`, the build fails reporting match count 2 and the slot pattern
`desc=T1`, and the string `01` appears nowhere in what the failure
reports. -/
theorem c1_counterexample :
    (_group_by_entities exSpec.entities exFiles).map Prod.fst = [["01"]]
    ∧ build_qc_entities exSpec exFiles =
        .error { nMatches := 2, descriptor := [("desc", "T1")] }
    ∧ "01" ∉ errStrings { nMatches := 2, descriptor := [("desc", "T1")] } :=
  ⟨by rfl, by rfl, by decide⟩

/-! ### C6: grouping and matching are order-independent -/

theorem mapE_congr {α β ε : Type} {f g : α → Except ε β} (l : List α)
    (h : ∀ a ∈ l, f a = g a) : mapE f l = mapE g l := by
  induction l with
  | nil => rfl
  | cons x xs ih =>
    have h2 := ih (fun a ha => h a (List.mem_cons_of_mem _ ha))
    rw [mapE, mapE, h x (List.mem_cons_self _ _)]
    simp only [h2]

theorem find_matches_perm {g1 g2 : List BidsFile} (h : g1.Perm g2)
    (d : AttrMap) : find_matches g1 d = find_matches g2 d := by
  have hperm := h.filter (fun b => _is_subdict b.entities d)
  have hlen := hperm.length_eq
  simp only [find_matches]
  by_cases hl : 1 < (List.filter (fun b => _is_subdict b.entities d) g1).length
  · have hl2 : 1 < (List.filter (fun b => _is_subdict b.entities d) g2).length := by
      rw [← hlen]
      exact hl
    rw [if_pos hl, if_pos hl2, hlen]
  · have hl2 : ¬ 1 < (List.filter (fun b => _is_subdict b.entities d) g2).length := by
      rw [← hlen]
      exact hl
    rw [if_neg hl, if_neg hl2]
    have heq : List.filter (fun b => _is_subdict b.entities d) g1 =
        List.filter (fun b => _is_subdict b.entities d) g2 := by
      rcases hf : List.filter (fun b => _is_subdict b.entities d) g1 with _ | ⟨a, rest⟩
      · rw [hf] at hperm
        rw [hf]
        exact hperm.symm.eq_nil.symm
      · rw [hf] at hperm hl
        rw [hf]
        have hrest : rest = [] := by
          rcases rest with _ | ⟨b, rest2⟩
          · rfl
          · exfalso
            apply hl
            simp
        subst hrest
        exact (List.perm_singleton.1 hperm.symm).symm
    rw [heq]

theorem processGroup_perm (spec : ConfigComponent) {g1 g2 : List BidsFile}
    (h : g1.Perm g2) : processGroup spec g1 = processGroup spec g2 := by
  have hm : mapE (fun i => find_matches g1 i) spec.image_descriptors =
      mapE (fun i => find_matches g2 i) spec.image_descriptors :=
    mapE_congr _ (fun d _ => find_matches_perm h d)
  simp only [processGroup, hm]

theorem groupKeys_perm (ents : List String) {l1 l2 : List BidsFile}
    (h : l1.Perm l2) :
    ((l1.map (fun b => _get_key b ents)).dedup).insertionSort (· ≤ ·) =
    ((l2.map (fun b => _get_key b ents)).dedup).insertionSort (· ≤ ·) := by
  refine @List.eq_of_perm_of_sorted (List String) (· ≤ ·) _ _ _ ?_ ?_ ?_
  · exact (List.perm_insertionSort _ _).trans
      (((h.map _).dedup).trans (List.perm_insertionSort _ _).symm)
  · exact List.sorted_insertionSort _ _
  · exact List.sorted_insertionSort _ _

theorem mapE_pg_congr (spec : ConfigComponent) (keys : List (List String))
    (F G : List String → List BidsFile)
    (h : ∀ k ∈ keys, processGroup spec (F k) = processGroup spec (G k)) :
    mapE (fun kg => processGroup spec kg.2) (keys.map (fun k => (k, F k))) =
    mapE (fun kg => processGroup spec kg.2) (keys.map (fun k => (k, G k))) := by
  induction keys with
  | nil => rfl
  | cons k ks ih =>
    have h1 := h k (List.mem_cons_self _ _)
    have h2 := ih (fun a ha => h a (List.mem_cons_of_mem _ ha))
    rw [List.map_cons, List.map_cons, mapE, mapE]
    simp only [h1, h2]

/-- C6: permuting the input record list leaves the Entity Matcher's output —
the whole per-group matched `QCEntity` list of `build_qc_entities`, groups
keyed and sorted by the group-by attribute values — unchanged, ambiguity
errors included. -/
theorem c6_grouping_order_independent (spec : ConfigComponent)
    (files1 files2 : List BidsFile) (h : files1.Perm files2) :
    build_qc_entities spec files1 = build_qc_entities spec files2 := by
  have hfp : (files1.filter
        (fun b => spec.entities.all (fun k => hasKey k b.entities))).Perm
      (files2.filter (fun b => spec.entities.all (fun k => hasKey k b.entities))) :=
    h.filter _
  have hkeys := groupKeys_perm spec.entities hfp
  simp only [build_qc_entities, _group_by_entities]
  rw [hkeys]
  have hmain := mapE_pg_congr spec
    (((files2.filter
        (fun b => spec.entities.all (fun k => hasKey k b.entities))).map
        (fun b => _get_key b spec.entities)).dedup.insertionSort (· ≤ ·))
    (fun k => (files1.filter
        (fun b => spec.entities.all (fun k => hasKey k b.entities))).filter
        (fun b => decide (_get_key b spec.entities = k)))
    (fun k => (files2.filter
        (fun b => spec.entities.all (fun k => hasKey k b.entities))).filter
        (fun b => decide (_get_key b spec.entities = k)))
    (fun k _ => processGroup_perm spec (hfp.filter _))
  rw [hmain]

/-- C6 witness: reversing the two-record input leaves the built index
unchanged. -/
theorem c6_witness :
    build_qc_entities exSpec exFiles = build_qc_entities exSpec exFiles.reverse :=
  c6_grouping_order_independent exSpec exFiles exFiles.reverse (by decide)

end DatmanNiviz
